import Mathlib

/-!
Verification of the FDA cosmetics RSS generator (generate_feed.py).

The script is embedded shallowly: page text is a `List Char`, Python's
string library functions are modelled over that type, the regular
expression used by the extractor is compiled by hand into a sequence of
atoms interpreted by a backtracking matcher with Python's semantics
(leftmost match, greedy and lazy repetition, non-overlapping iteration),
and the orchestrator `main` becomes a pure function from a fetch outcome
and a clock reading to the written file content and the exit status.

Character classes are modelled on the ASCII subset (the page and every
input considered here is ASCII): Python's `\d`, `\s`, `str.lower` and
`re.IGNORECASE` additionally handle non-ASCII Unicode, which no claim
touches.
-/

/-- Page and section text: a Python `str` as a list of characters. -/
abbrev Str := List Char

/-- Shorthand turning a Lean string literal into the character list. -/
def str (x : String) : Str := x.data

/-- The single-quote character (used in concrete inputs). -/
def squote : Char := Char.ofNat 39

/-- ASCII model of Python's `str.lower` on one character. -/
def pyLower (c : Char) : Char :=
  if 'A' ≤ c ∧ c ≤ 'Z' then Char.ofNat (c.toNat + 32) else c

/-- ASCII model of Python's whitespace class (`\s`, `str.strip`, `str.split`). -/
def isPySpace (c : Char) : Bool :=
  c = ' ' || c = '\t' || c = '\n' || c = '\x0d' || c = '\x0b' || c = '\x0c'

/-- ASCII decimal digit, the model of the regex class `\d`. -/
def isDigitA (c : Char) : Bool := '0' ≤ c && c ≤ '9'

/-- Python `str.strip()`: drop leading and trailing whitespace. -/
def pyStrip (l : Str) : Str :=
  ((l.dropWhile (isPySpace ·)).reverse.dropWhile (isPySpace ·)).reverse

/-- Recursion behind `startsWith`, structural on the needle. -/
def startsWithAux : Str → Str → Bool
  | [], _ => true
  | _ :: _, [] => false
  | n :: ns, h :: hs => h = n && startsWithAux ns hs

/-- Whether `needle` occurs at the front of `hay` (exact characters). -/
def startsWith (l needle : Str) : Bool := startsWithAux needle l

/-- Scanner behind `pyFind`: first index `≥ i` where `needle` starts. -/
def pyFindAux (needle : Str) : Str → Nat → Int
  | l, i =>
    if startsWith l needle then (i : Int)
    else match l with
      | [] => -1
      | _ :: t => pyFindAux needle t (i + 1)

/-- Python `str.find`: index of the first occurrence of `needle` in `hay`,
`-1` when absent. -/
def pyFind (hay needle : Str) : Int := pyFindAux needle hay 0

/-- Python slice `l[a:b]` for `0 ≤ a, b` (empty when `b ≤ a`). -/
def pySlice (l : Str) (a b : Nat) : Str := (l.drop a).take (b - a)

/-- The section isolator of `extract_recent_news_items` (lines 49-53 of the
source): find the start marker, first with the entity-encoded ampersand and
then with the raw one, find the end marker, and slice the page between them
when both were found, otherwise keep the whole page. -/
def sectionOf (page : Str) : Str :=
  let lower := page.map pyLower
  let s1 := pyFind lower (str "recent news &amp; updates")
  let start_idx := if s1 = -1 then pyFind lower (str "recent news & updates") else s1
  let end_idx := pyFind lower (str "recent federal register notices")
  if start_idx ≠ -1 ∧ end_idx ≠ -1 then
    pySlice page start_idx.toNat end_idx.toNat
  else page

/-! ## The date normalizer `parse_mmddyyyy` -/

/-- A `datetime.datetime` value as built by the script: calendar fields,
clock fields, and the flag that `tzinfo=timezone.utc` was attached. -/
structure Datetime where
  year : Nat
  month : Nat
  day : Nat
  hour : Nat
  minute : Nat
  second : Nat
  utc : Bool
deriving DecidableEq, Repr

/-- Python `s.split("/")`: split at every slash, keeping empty groups. -/
def splitOnSlash : Str → List Str
  | [] => [[]]
  | c :: cs =>
    if c = '/' then [] :: splitOnSlash cs
    else match splitOnSlash cs with
      | [] => [[c]]
      | g :: gs => (c :: g) :: gs

/-- Numeric value of a non-empty all-digit string, `none` otherwise. -/
def digitsVal? (l : Str) : Option Nat :=
  if l ≠ [] ∧ l.all (isDigitA ·) then
    some (l.foldl (fun acc c => 10 * acc + (c.toNat - '0'.toNat)) 0)
  else none

/-- Python `int(s)` on the inputs in scope: optional surrounding
whitespace, an optional sign, then decimal digits (Python additionally
accepts underscore separators and non-ASCII digits, which never arise
here). -/
def pyInt? (l : Str) : Option Int :=
  let t := pyStrip l
  match t with
  | [] => none
  | c :: rest =>
    if c = '+' then (digitsVal? rest).map (Int.ofNat ·)
    else if c = '-' then (digitsVal? rest).map (fun n => -(n : Int))
    else (digitsVal? t).map (Int.ofNat ·)

/-- Gregorian leap year, as in CPython's `datetime` module. -/
def isLeap (y : Nat) : Bool := y % 4 == 0 && (y % 100 != 0 || y % 400 == 0)

/-- Days in a month of the proleptic Gregorian calendar. -/
def daysInMonth (y m : Nat) : Nat :=
  if m = 2 then (if isLeap y then 29 else 28)
  else if m = 4 ∨ m = 6 ∨ m = 9 ∨ m = 11 then 30
  else 31

/-- Validity check of `datetime.datetime(y, m, d, ...)`: year within
`MINYEAR..MAXYEAR`, month within 1..12, day within the month. -/
def dateOk (y m d : Int) : Bool :=
  1 ≤ y && y ≤ 9999 && 1 ≤ m && m ≤ 12 && 1 ≤ d &&
    d ≤ (daysInMonth y.toNat m.toNat : Int)

/-- The constructor call `datetime(yy, mm, dd, 0, 0, 0, tzinfo=timezone.utc)`:
validates the fields and yields a midnight-UTC instant, `none` modelling the
`ValueError` the constructor raises on an invalid date. -/
def mkDatetime (y m d : Int) : Option Datetime :=
  if dateOk y m d then some ⟨y.toNat, m.toNat, d.toNat, 0, 0, 0, true⟩
  else none

/-- The date normalizer `parse_mmddyyyy` (source lines 18-33): strip, split
on slashes, require exactly three groups, read each as an integer, add 2000
to a year below 100, and build the midnight-UTC datetime. Any failure
(wrong group count, non-integer group, invalid calendar date) is `none`,
modelling the raised exception. -/
def parse_mmddyyyy (date_str : Str) : Option Datetime :=
  let s := pyStrip date_str
  match splitOnSlash s with
  | [m, d, y] =>
    match pyInt? m, pyInt? d, pyInt? y with
    | some mm, some dd, some yy0 =>
      let yy := if yy0 < 100 then 2000 + yy0 else yy0
      mkDatetime yy mm dd
    | _, _, _ => none
  | _ => none

/-! ## The extraction regular expression

The pattern of source lines 57-60,

  (\d..1,2../\d..1,2../\d..2,4..)\s*-\s*.*?<a[^>]+href="([^"]+)"[^>]*>\s*(.*?)\s*</a>

compiled with IGNORECASE and DOTALL, is embedded as a linear sequence of
atoms (it has no alternation) run by a backtracking interpreter with
Python's strategy: greedy repetitions try the longest count first, lazy
ones the shortest, literals compare case-insensitively when flagged, and
`finditer` yields successive non-overlapping leftmost matches. -/

/-- One atom of the compiled pattern: a literal (with a case-insensitivity
flag), a counted repetition of a one-character class (with a laziness
flag), or a capture-group boundary. -/
inductive Atom where
  | lit (cs : Str) (ci : Bool)
  | cls (p : Char → Bool) (lo : Nat) (hi : Option Nat) (lzy : Bool)
  | gOpen (n : Nat)
  | gClose (n : Nat)

/-- Capture state: positions where groups opened, and closed spans. -/
structure Caps where
  opens : List (Nat × Nat)
  spans : List (Nat × (Nat × Nat))
deriving Repr

/-- Prefix match of `needle` against the text, case-folded when `ci`. -/
def startsWithCI (ci : Bool) : Str → Str → Bool
  | _, [] => true
  | [], _ :: _ => false
  | h :: hs, n :: ns =>
    (if ci then pyLower h = pyLower n else h = n) && startsWithCI ci hs ns

/-- First successful application of `f` along the candidate list. -/
def firstSomeRange (f : Nat → Option α) : List Nat → Option α
  | [] => none
  | k :: t =>
    match f k with
    | some r => some r
    | none => firstSomeRange f t

/-- Repetition counts `lo..mx` in the order the engine tries them:
ascending for a lazy quantifier, descending for a greedy one. -/
def candList (lo mx : Nat) (lzy : Bool) : List Nat :=
  let up := (List.range (mx + 1 - lo)).map (lo + ·)
  if lzy then up else up.reverse

/-- The backtracking matcher: match the atom sequence against `rest`
(the text from offset `pos`), returning the end position and captures of
the first success in backtracking order. -/
def matchSeq : List Atom → Str → Nat → Caps → Option (Nat × Caps)
  | [], _, pos, caps => some (pos, caps)
  | .lit cs ci :: as, rest, pos, caps =>
    if startsWithCI ci rest cs then
      matchSeq as (rest.drop cs.length) (pos + cs.length) caps
    else none
  | .cls p lo hi lzy :: as, rest, pos, caps =>
    let mx := match hi with
      | none => (rest.takeWhile p).length
      | some h => min h (rest.takeWhile p).length
    if lo ≤ mx then
      firstSomeRange (fun k => matchSeq as (rest.drop k) (pos + k) caps)
        (candList lo mx lzy)
    else none
  | .gOpen n :: as, rest, pos, caps =>
    matchSeq as rest pos ⟨(n, pos) :: caps.opens, caps.spans⟩
  | .gClose n :: as, rest, pos, caps =>
    matchSeq as rest pos
      ⟨caps.opens, (n, ((caps.opens.lookup n).getD 0, pos)) :: caps.spans⟩

/-- The class `.` under DOTALL. -/
def anyChar (_ : Char) : Bool := true

/-- The class `[^>]`. -/
def notGt (c : Char) : Bool := c != '>'

/-- The class `[^"]`. -/
def notQuote (c : Char) : Bool := c != '"'

/-- The compiled atom sequence of the extraction pattern. -/
def patAtoms : List Atom := [
  .gOpen 1,
  .cls isDigitA 1 (some 2) false,
  .lit (str "/") false,
  .cls isDigitA 1 (some 2) false,
  .lit (str "/") false,
  .cls isDigitA 2 (some 4) false,
  .gClose 1,
  .cls isPySpace 0 none false,
  .lit (str "-") false,
  .cls isPySpace 0 none false,
  .cls anyChar 0 none true,
  .lit (str "<a") true,
  .cls notGt 1 none false,
  .lit (str "href=\"") true,
  .gOpen 2,
  .cls notQuote 1 none false,
  .gClose 2,
  .lit (str "\"") false,
  .cls notGt 0 none false,
  .lit (str ">") false,
  .cls isPySpace 0 none false,
  .gOpen 3,
  .cls anyChar 0 none true,
  .gClose 3,
  .cls isPySpace 0 none false,
  .lit (str "</a>") true
]

/-- Attempt a match of the whole pattern at offset `i` of `text`. -/
def matchAt (text : Str) (i : Nat) : Option (Nat × Caps) :=
  matchSeq patAtoms (text.drop i) i ⟨[], []⟩

/-- One `finditer` match, reduced to what the script reads from it:
the three captured group texts. -/
structure MatchRes where
  g1 : Str
  g2 : Str
  g3 : Str
deriving Repr, DecidableEq

/-- Text of capture group `n` recorded in `caps`. -/
def groupStr (text : Str) (caps : Caps) (n : Nat) : Str :=
  let ab := (caps.spans.lookup n).getD (0, 0)
  pySlice text ab.1 ab.2

/-- Scanner behind `finditer`: try successive start offsets, emit each
match and continue after its end (Python's non-overlapping rule; the
`i + 1` fallback for an empty match can not fire for this pattern). -/
def finditerAux (text : Str) : Nat → Nat → List MatchRes
  | 0, _ => []
  | fuel + 1, i =>
    if i > text.length then []
    else match matchAt text i with
      | some (j, caps) =>
        ⟨groupStr text caps 1, groupStr text caps 2, groupStr text caps 3⟩ ::
          finditerAux text fuel (if i < j then j else i + 1)
      | none => finditerAux text fuel (i + 1)

/-- Python `pat.finditer(text)`: all non-overlapping matches, leftmost
first. The fuel bounds the scan; start offsets are strictly increasing,
so `length + 2` steps always suffice. -/
def finditer (text : Str) : List MatchRes := finditerAux text (text.length + 2) 0

/-! ## Title normalization -/

/-- Scanner behind `stripTags`, modelling `re.sub(r"<[^>]+>", "", t)`:
at each `<`, a maximal run of at least one non-`>` character followed by
`>` is deleted; otherwise the character is kept. The fuel is spent one
unit per step and `length` units always suffice. -/
def stripTagsAux : Nat → Str → Str
  | _, [] => []
  | 0, l => l
  | f + 1, c :: r =>
    if c = '<' then
      let run := r.takeWhile (notGt ·)
      if run ≠ [] ∧ run.length < r.length then stripTagsAux f (r.drop (run.length + 1))
      else c :: stripTagsAux f r
    else c :: stripTagsAux f r

/-- Delete markup tags from the raw inner text (source line 70). -/
def stripTags (l : Str) : Str := stripTagsAux l.length l

/-- Scanner behind `collapseWs`, modelling `re.sub(r"\s+", " ", t)`:
each maximal whitespace run becomes one space. -/
def collapseWsAux : Nat → Str → Str
  | _, [] => []
  | 0, l => l
  | f + 1, c :: r =>
    if isPySpace c then ' ' :: collapseWsAux f (r.dropWhile (isPySpace ·))
    else c :: collapseWsAux f r

/-- Collapse whitespace runs to single spaces (source line 71). -/
def collapseWs (l : Str) : Str := collapseWsAux l.length l

/-- Recognize an HTML character reference right after a `&`: the entity
forms produced by `html.escape` plus the other spellings of the same five
characters. Python's `html.unescape` knows the full HTML5 entity table;
on text containing only these references the behavior coincides, and the
escaping round trip below only ever meets these. -/
def entityAt (l : Str) : Option (Char × Nat) :=
  if startsWith l (str "amp;") then some ('&', 4)
  else if startsWith l (str "lt;") then some ('<', 3)
  else if startsWith l (str "gt;") then some ('>', 3)
  else if startsWith l (str "quot;") then some ('"', 5)
  else if startsWith l (str "#x27;") then some (squote, 5)
  else if startsWith l (str "#39;") then some (squote, 4)
  else if startsWith l (str "apos;") then some (squote, 5)
  else none

/-- Scanner behind `html_unescape`. -/
def unescapeAux : Nat → Str → Str
  | _, [] => []
  | 0, l => l
  | f + 1, c :: r =>
    if c = '&' then
      match entityAt r with
      | some (d, n) => d :: unescapeAux f (r.drop n)
      | none => c :: unescapeAux f r
    else c :: unescapeAux f r

/-- Model of `html.unescape` (source line 71): decode character
references. -/
def html_unescape (l : Str) : Str := unescapeAux l.length l

/-- Full title normalization of source lines 70-71: delete tags, collapse
whitespace, decode entities, strip. -/
def normTitle (raw : Str) : Str := pyStrip (html_unescape (collapseWs (stripTags raw)))

/-- Model of `html.escape(s)` (quote=True): since the replacement of `&`
is applied first and the later replacements introduce no further special
characters, the sequential `str.replace` chain acts character-wise. -/
def escChar (c : Char) : Str :=
  if c = '&' then str "&amp;"
  else if c = '<' then str "&lt;"
  else if c = '>' then str "&gt;"
  else if c = '"' then str "&quot;"
  else if c = squote then '&' :: str "#x27;"
  else [c]

/-- HTML-escape a text for the feed document. -/
def html_escape (l : Str) : Str := l.flatMap escChar

/-! ## Link resolution: `urllib.parse.urljoin` against the fixed base

Modelled from CPython's `urllib.parse`: `urljoin` goes through
`urlparse`, which additionally splits the `params` component (a `;` in
the last path segment) off the path before dot-segment resolution, and
`urlunparse` re-attaches it. The `ValueError` for unbalanced brackets
in a netloc is not modelled (no claim involves `[`). -/

/-- The fixed base origin (source line 9). -/
def SITE_BASE : Str := str "https://www.fda.gov"

/-- The fetched page address (source line 8). -/
def PAGE_URL : Str := str "https://www.fda.gov/cosmetics/cosmetics-news-events"

/-- The item cap (source line 10). -/
def MAX_ITEMS : Nat := 50

/-- Split at the first occurrence of `c`, if any. -/
def splitFirst : Str → Char → Option (Str × Str)
  | [], _ => none
  | h :: t, c =>
    if h = c then some ([], t)
    else (splitFirst t c).map (fun ab => (h :: ab.1, ab.2))

/-- Characters allowed in a URL scheme after the leading letter. -/
def schemeChar (c : Char) : Bool := c.isAlpha || c.isDigit || c = '+' || c = '-' || c = '.'

/-- Scheme detection of `urlsplit`: a leading alphabetic character, a run
of scheme characters, then the first colon of the text. Yields the
lowercased scheme and the remainder. -/
def schemeSplit (url : Str) : Option (Str × Str) :=
  let i := pyFind url (str ":")
  if 0 < i ∧ (url.headD ' ').isAlpha ∧ (url.take i.toNat).all (schemeChar ·) then
    some ((url.take i.toNat).map pyLower, url.drop (i.toNat + 1))
  else none

/-- The parsed components of a URL. -/
structure UrlParts where
  scheme : Str
  netloc : Str
  path : Str
  query : Str
  fragment : Str
deriving DecidableEq, Repr

/-- Model of `urlsplit(url, default_scheme)`: remove tab, CR and LF,
detect the scheme, the `//netloc`, the fragment (first `#`), and the
query (first `?` before the fragment). -/
def urlsplitM (url0 : Str) (defScheme : Str) : UrlParts :=
  let url := url0.filter (fun c => ¬(c = '\t' ∨ c = '\n' ∨ c = '\x0d'))
  let sr :=
    match schemeSplit url with
    | some p => p
    | none => (defScheme, url)
  let scheme := sr.1
  let nr :=
    if startsWith sr.2 (str "//") then
      let r2 := sr.2.drop 2
      let n := r2.takeWhile (fun c => ¬(c = '/' ∨ c = '?' ∨ c = '#'))
      (n, r2.drop n.length)
    else ([], sr.2)
  let rf :=
    match splitFirst nr.2 '#' with
    | some ab => ab
    | none => (nr.2, [])
  let pq :=
    match splitFirst rf.1 '?' with
    | some ab => ab
    | none => (rf.1, [])
  ⟨scheme, nr.1, pq.1, pq.2, rf.2⟩

/-- Model of `urlunsplit`: reassemble the components. -/
def urlunsplitM (u : UrlParts) : Str :=
  let url := u.path
  let url :=
    if u.netloc ≠ [] ∨ startsWith url (str "//") then
      str "//" ++ u.netloc ++
        (if url ≠ [] ∧ ¬ startsWith url (str "/") then '/' :: url else url)
    else url
  let url := if u.scheme ≠ [] then u.scheme ++ ':' :: url else url
  let url := if u.query ≠ [] then url ++ '?' :: u.query else url
  if u.fragment ≠ [] then url ++ '#' :: u.fragment else url

/-- The `uses_relative` scheme list of `urllib.parse`. -/
def usesRelative : List Str :=
  [str "", str "ftp", str "http", str "gopher", str "nntp", str "imap",
   str "wais", str "file", str "https", str "shttp", str "mms",
   str "prospero", str "rtsp", str "rtspu", str "sftp", str "svn",
   str "svn+ssh", str "ws", str "wss"]

/-- The `uses_netloc` scheme list of `urllib.parse`. -/
def usesNetloc : List Str :=
  [str "", str "ftp", str "http", str "gopher", str "nntp", str "telnet",
   str "imap", str "wais", str "file", str "mms", str "https", str "shttp",
   str "snews", str "prospero", str "rtsp", str "rtspu", str "rsync",
   str "svn", str "svn+ssh", str "sftp", str "nfs", str "git",
   str "git+ssh", str "ws", str "wss", str "itms-services"]

/-- RFC 3986 dot-segment resolution loop of `urljoin`. -/
def resolveDots (segs : List Str) : List Str :=
  segs.foldl
    (fun acc seg =>
      if seg = str ".." then acc.dropLast
      else if seg = str "." then acc
      else acc ++ [seg])
    []

/-- The statement `segments[1:-1] = filter(None, segments[1:-1])`:
drop empty inner segments, keeping the first and the last. -/
def dropInnerEmpties : List Str → List Str
  | [] => []
  | [a] => [a]
  | a :: rest => a :: ((rest.dropLast.filter (fun s => s ≠ [])) ++ [rest.getLast?.getD []])

/-- Join path segments back with slashes. -/
def joinSlash (segs : List Str) : Str := (segs.intersperse (str "/")).flatten

/-- The `uses_params` scheme list of `urllib.parse`. -/
def usesParams : List Str :=
  [str "", str "ftp", str "hdl", str "prospero", str "http", str "imap",
   str "https", str "shttp", str "rtsp", str "rtsps", str "rtspu",
   str "sip", str "sips", str "mms", str "sftp", str "tel"]

/-- Python `str.find(needle, start)`: first occurrence at or after
`start`, `-1` when absent. -/
def pyFindFrom (hay needle : Str) (start : Nat) : Int :=
  pyFindAux needle (hay.drop start) start

/-- Python `str.rfind(c)` for a single character: index of the last
occurrence, `-1` when absent. -/
def pyRFindChar (l : Str) (c : Char) : Int :=
  let i := pyFind l.reverse [c]
  if i = -1 then -1 else (l.length : Int) - 1 - i

/-- Model of `_splitparams(url)`: split the `;`-params off the last
path segment (searching for `;` only after the last slash, if any). -/
def splitParams (url : Str) : Str × Str :=
  let i : Int :=
    if '/' ∈ url then pyFindFrom url (str ";") (pyRFindChar url '/').toNat
    else pyFind url (str ";")
  if i < 0 then (url, [])
  else (url.take i.toNat, url.drop (i.toNat + 1))

/-- The params step of `urlparse`: split the params off the path when
the scheme uses them and the path contains a `;`. -/
def paramsSplit (scheme path : Str) : Str × Str :=
  if usesParams.contains scheme ∧ ';' ∈ path then splitParams path
  else (path, [])

/-- Model of `urlunparse`: re-attach the params to the path, then
reassemble. -/
def urlunparseM (scheme netloc path params query fragment : Str) : Str :=
  urlunsplitM
    ⟨scheme, netloc, (if params ≠ [] then path ++ ';' :: params else path),
     query, fragment⟩

/-- Model of `urljoin(base, url)` from CPython's `urllib.parse`,
params split included. -/
def urljoinM (base url : Str) : Str :=
  if base = [] then url
  else if url = [] then base
  else
    let b := urlsplitM base []
    let bp := paramsSplit b.scheme b.path
    let r := urlsplitM url b.scheme
    let p := paramsSplit r.scheme r.path
    if r.scheme ≠ b.scheme ∨ ¬ usesRelative.contains r.scheme then url
    else if usesNetloc.contains r.scheme ∧ r.netloc ≠ [] then
      urlunparseM r.scheme r.netloc p.1 p.2 r.query r.fragment
    else
      let netloc := if usesNetloc.contains r.scheme then b.netloc else r.netloc
      if p.1 = [] ∧ p.2 = [] then
        let q := if r.query = [] then b.query else r.query
        urlunparseM r.scheme netloc bp.1 bp.2 q r.fragment
      else
        let baseParts0 := splitOnSlash bp.1
        let baseParts :=
          if baseParts0.getLast?.getD [] ≠ [] then baseParts0.dropLast else baseParts0
        let segments :=
          if startsWith p.1 (str "/") then splitOnSlash p.1
          else dropInnerEmpties (baseParts ++ splitOnSlash p.1)
        let resolved := resolveDots segments
        let resolved :=
          if segments.getLast?.getD [] = str "." ∨ segments.getLast?.getD [] = str ".." then
            resolved ++ [[]]
          else resolved
        let jp := joinSlash resolved
        let jp := if jp = [] then str "/" else jp
        urlunparseM r.scheme netloc jp p.2 r.query r.fragment

/-! ## The extraction pipeline -/

/-- One extracted tuple `(pub_dt, title, absolute_url)`. -/
structure Entry where
  pub_dt : Datetime
  title : Str
  url : Str
deriving DecidableEq, Repr

/-- Decimal digits of `n`. -/
def natStr (n : Nat) : Str := Nat.toDigits 10 n

/-- Zero-pad to two digits. -/
def pad2 (n : Nat) : Str := if n < 10 then '0' :: natStr n else natStr n

/-- Zero-pad to four digits, as `date.isoformat` renders the year. -/
def pad4 (n : Nat) : Str :=
  List.replicate (4 - (natStr n).length) '0' ++ natStr n

/-- The string `pub_dt.date().isoformat()` used inside the dedup key. -/
def isoDate (d : Datetime) : Str :=
  pad4 d.year ++ '-' :: pad2 d.month ++ '-' :: pad2 d.day

/-- The dedup key of source line 80: `(title, url, date-iso-string)`. -/
def entryKey (e : Entry) : Str × Str × Str := (e.title, e.url, isoDate e.pub_dt)

/-- The per-match body of the extraction loop (source lines 65-78): strip
the href, normalize the title, resolve the link, and parse the date,
`none` modelling the caught parse exception that skips the match. -/
def toEntry? (m : MatchRes) : Option Entry :=
  let href := pyStrip m.g2
  let title := normTitle m.g3
  let url := urljoinM SITE_BASE href
  match parse_mmddyyyy m.g1 with
  | some dt => some ⟨dt, title, url⟩
  | none => none

/-- The dedup accumulation of source lines 80-83: keep a match when its
title is non-empty and its key is unseen, recording the key. -/
def collectAux : List Entry → List (Str × Str × Str) → List Entry
  | [], _ => []
  | e :: es, seen =>
    if e.title ≠ [] ∧ ¬ entryKey e ∈ seen then e :: collectAux es (entryKey e :: seen)
    else collectAux es seen

/-- Deduplicate in source order starting from no seen keys. -/
def collectE (l : List Entry) : List Entry := collectAux l []

/-- Strict chronological comparison of two of the script's datetimes
(same timezone), field-lexicographic as in CPython. -/
def dtLtB (a b : Datetime) : Bool :=
  if a.year ≠ b.year then a.year < b.year
  else if a.month ≠ b.month then a.month < b.month
  else if a.day ≠ b.day then a.day < b.day
  else if a.hour ≠ b.hour then a.hour < b.hour
  else if a.minute ≠ b.minute then a.minute < b.minute
  else if a.second ≠ b.second then a.second < b.second
  else false

/-- Insert `x` before the first element not newer than it. -/
def insertDesc (x : Entry) : List Entry → List Entry
  | [] => [x]
  | y :: ys => if dtLtB x.pub_dt y.pub_dt then y :: insertDesc x ys else x :: y :: ys

/-- The call `items.sort(key=lambda x: x[0], reverse=True)`: a stable
sort, newest first. Any stable descending sort computes the same list as
CPython's; this one is insertion-based. -/
def sortDesc : List Entry → List Entry
  | [] => []
  | x :: xs => insertDesc x (sortDesc xs)

/-- The candidate entries of a page, in source-document order. -/
def candidatesOf (page : Str) : List Entry :=
  (finditer (sectionOf page)).filterMap toEntry?

/-- The whole extractor `extract_recent_news_items` (source lines 38-87). -/
def extract_recent_news_items (page : Str) : List Entry :=
  (sortDesc (collectE (candidatesOf page))).take MAX_ITEMS

/-! ## The feed serializer and the orchestrator -/

/-- Day count of the proleptic Gregorian calendar before year `y`. -/
def daysBeforeYear (y : Nat) : Nat :=
  let n := y - 1
  n * 365 + n / 4 - n / 100 + n / 400

/-- Day count in year `y` before month `m`. -/
def daysBeforeMonth (y m : Nat) : Nat :=
  ((List.range (m - 1)).map (fun i => daysInMonth y (i + 1))).sum

/-- The `datetime.toordinal` value: day 1 is January 1 of year 1. -/
def toOrdinal (y m d : Nat) : Nat := daysBeforeYear y + daysBeforeMonth y m + d

/-- The `weekday()` value: 0 is Monday. -/
def weekday (y m d : Nat) : Nat := (toOrdinal y m d + 6) % 7

/-- Abbreviated weekday names of `strftime("%a")` in the C locale. -/
def dayNames : List Str :=
  [str "Mon", str "Tue", str "Wed", str "Thu", str "Fri", str "Sat", str "Sun"]

/-- Abbreviated month names of `strftime("%b")` in the C locale. -/
def monNames : List Str :=
  [str "Jan", str "Feb", str "Mar", str "Apr", str "May", str "Jun",
   str "Jul", str "Aug", str "Sep", str "Oct", str "Nov", str "Dec"]

/-- The function `rfc2822` (source lines 35-36) on an already-UTC value:
`strftime("%a, %d %b %Y %H:%M:%S %z")` with `+0000` as the offset. -/
def rfc2822c (dt : Datetime) : Str :=
  (dayNames.getD (weekday dt.year dt.month dt.day) []) ++ str ", " ++
    pad2 dt.day ++ ' ' :: (monNames.getD (dt.month - 1) []) ++ ' ' :: natStr dt.year ++
    ' ' :: pad2 dt.hour ++ ':' :: pad2 dt.minute ++ ':' :: pad2 dt.second ++
    str " +0000"

/-- One serialized `item` block (source lines 96-105, after `.strip()`). -/
def itemBlock (e : Entry) : Str :=
  str "<item>\n      <title>" ++ html_escape e.title ++
    str "</title>\n      <link>" ++ html_escape e.url ++
    str "</link>\n      <guid isPermaLink=\"true\">" ++ html_escape e.url ++
    str "</guid>\n      <pubDate>" ++ rfc2822c e.pub_dt ++
    str "</pubDate>\n    </item>"

/-- The `chr(10).join(...)` of the item blocks. -/
def joinNL (l : List Str) : Str := (l.intersperse (str "\n")).flatten

/-- The whole feed document (source lines 107-117). -/
def rssDoc (build : Datetime) (items : List Entry) : Str :=
  str "<?xml version=\"1.0\" encoding=\"UTF-8\"?>\n<rss version=\"2.0\">\n  <channel>\n    <title>" ++
    html_escape (str "FDA Cosmetics News & Events") ++
    str "</title>\n    <link>" ++ html_escape PAGE_URL ++
    str "</link>\n    <description>" ++
    html_escape (str "Unofficial RSS feed generated from FDA Cosmetics News & Events (Recent News & Updates).") ++
    str "</description>\n    <lastBuildDate>" ++ rfc2822c build ++
    str "</lastBuildDate>\n" ++ joinNL (items.map itemBlock) ++
    str "\n  </channel>\n</rss>\n"

/-- Outcome of the fetch step: the decoded page, or a raised network
error (timeout, connection failure). -/
inductive FetchResult where
  | ok (page : Str)
  | err
deriving DecidableEq

/-- Observable outcome of one run of `main`: the content of `feed.xml`
after the run (relative to its prior content), the printed item count,
and the returned status (`none` models an exception escaping `main`,
which terminates the process with a non-zero status and no return). -/
structure RunOutcome where
  file : Option Str
  count : Option Nat
  status : Option Nat
deriving DecidableEq

/-- The orchestrator `main` (source lines 89-123) as a function of the
fetch outcome, the current instant, and the prior content of `feed.xml`:
a fetch error propagates before anything is written; otherwise the feed
is extracted, serialized, written, and status 0 returned. -/
def mainModel (fetch : FetchResult) (now : Datetime) (fs0 : Option Str) : RunOutcome :=
  match fetch with
  | .err => ⟨fs0, none, none⟩
  | .ok page =>
    let items := extract_recent_news_items page
    let doc := rssDoc now items
    ⟨some doc, some items.length, some 0⟩

/-! ## Basic lemmas about the string models -/

theorem dropWhile_eq_self_of_none (p : Char → Bool) :
    ∀ l : Str, (∀ c ∈ l, p c = false) → l.dropWhile p = l := by
  intro l h
  cases l with
  | nil => rfl
  | cons c t =>
    rw [List.dropWhile_cons]
    simp [h c (by simp)]

theorem pyStrip_eq_self (l : Str) (h : ∀ c ∈ l, isPySpace c = false) :
    pyStrip l = l := by
  unfold pyStrip
  rw [dropWhile_eq_self_of_none _ l h,
      dropWhile_eq_self_of_none _ l.reverse (by intro c hc; exact h c (List.mem_reverse.mp hc)),
      List.reverse_reverse]

theorem isPySpace_of_digit {c : Char} (h : isDigitA c = true) : isPySpace c = false := by
  by_contra hs
  simp only [Bool.not_eq_false] at hs
  simp only [isPySpace, Bool.or_eq_true, decide_eq_true_eq] at hs
  rcases hs with (((((h1 | h1) | h1) | h1) | h1) | h1) <;> subst h1 <;>
    exact absurd h (by decide)

theorem splitOnSlash_no_slash : ∀ l : Str, '/' ∉ l → splitOnSlash l = [l] := by
  intro l
  induction l with
  | nil => intro _; rfl
  | cons c t ih =>
    intro h
    have hc : ¬ c = '/' := fun he => h (by simp [he])
    unfold splitOnSlash
    simp only [hc, if_false]
    rw [ih (fun ht => h (by simp [ht]))]

theorem splitOnSlash_append (a r : Str) (ha : '/' ∉ a) :
    splitOnSlash (a ++ '/' :: r) = a :: splitOnSlash r := by
  induction a with
  | nil => simp [splitOnSlash]
  | cons c t ih =>
    have hc : ¬ c = '/' := fun he => ha (by simp [he])
    have ih' := ih (fun ht => ha (by simp [ht]))
    simp only [List.cons_append, splitOnSlash, hc, if_false, List.append_eq, ih']

theorem digitsVal?_digits (l : Str) (hne : l ≠ []) (hd : ∀ c ∈ l, isDigitA c = true) :
    digitsVal? l = some (l.foldl (fun acc c => 10 * acc + (c.toNat - '0'.toNat)) 0) := by
  unfold digitsVal?
  rw [if_pos]
  exact ⟨hne, List.all_eq_true.mpr (fun c hc => hd c hc)⟩

/-- Decimal value of a digit string (shared with `digitsVal?`). -/
def decVal (l : Str) : Nat := l.foldl (fun acc c => 10 * acc + (c.toNat - '0'.toNat)) 0

theorem pyInt?_digits (l : Str) (hne : l ≠ []) (hd : ∀ c ∈ l, isDigitA c = true) :
    pyInt? l = some (decVal l : Int) := by
  unfold pyInt?
  rw [pyStrip_eq_self l (fun c hc => isPySpace_of_digit (hd c hc))]
  cases l with
  | nil => exact absurd rfl hne
  | cons c t =>
    have hc : isDigitA c = true := hd c (by simp)
    have hplus : ¬ c = '+' := fun he => by subst he; exact absurd hc (by decide)
    have hminus : ¬ c = '-' := fun he => by subst he; exact absurd hc (by decide)
    simp only [hplus, hminus, if_false]
    rw [digitsVal?_digits _ hne hd]
    rfl

theorem natCast_ite_year (Y0 : Nat) :
    (if (Y0 : Int) < 100 then 2000 + (Y0 : Int) else (Y0 : Int)) =
      ((if Y0 < 100 then 2000 + Y0 else Y0 : Nat) : Int) := by
  split_ifs with h h' h' <;> push_cast <;> omega

/-- C2: for every input made of exactly three slash-separated digit groups
m, d, y whose values (after the two-digit-year adjustment) form a valid
calendar date, `parse_mmddyyyy` yields the midnight-UTC datetime with
month `int(m)`, day `int(d)`, and year `2000 + int(y)` when `int(y) < 100`,
otherwise `int(y)` unchanged. -/
theorem c2_date_normalization (m d y : Str)
    (hm : m ≠ []) (hd : d ≠ []) (hy : y ≠ [])
    (hmd : ∀ c ∈ m, isDigitA c = true) (hdd : ∀ c ∈ d, isDigitA c = true)
    (hyd : ∀ c ∈ y, isDigitA c = true)
    (h1 : 1 ≤ decVal m) (h2 : decVal m ≤ 12) (h3 : 1 ≤ decVal d)
    (h4 : decVal d ≤ daysInMonth (if decVal y < 100 then 2000 + decVal y else decVal y) (decVal m))
    (h5 : (if decVal y < 100 then 2000 + decVal y else decVal y) ≤ 9999)
    (h6 : 1 ≤ (if decVal y < 100 then 2000 + decVal y else decVal y)) :
    parse_mmddyyyy (m ++ '/' :: (d ++ '/' :: y)) =
      some ⟨(if decVal y < 100 then 2000 + decVal y else decVal y),
            decVal m, decVal d, 0, 0, 0, true⟩ := by
  have hmnd : '/' ∉ m := fun hc => by
    have := hmd '/' hc; exact absurd this (by decide)
  have hdnd : '/' ∉ d := fun hc => by
    have := hdd '/' hc; exact absurd this (by decide)
  have hynd : '/' ∉ y := fun hc => by
    have := hyd '/' hc; exact absurd this (by decide)
  have hall : ∀ c ∈ m ++ '/' :: (d ++ '/' :: y), isPySpace c = false := by
    intro c hc
    rcases List.mem_append.mp hc with h | h
    · exact isPySpace_of_digit (hmd c h)
    · rcases List.mem_cons.mp h with h | h
      · subst h; decide
      · rcases List.mem_append.mp h with h | h
        · exact isPySpace_of_digit (hdd c h)
        · rcases List.mem_cons.mp h with h | h
          · subst h; decide
          · exact isPySpace_of_digit (hyd c h)
  simp only [parse_mmddyyyy]
  rw [pyStrip_eq_self _ hall, splitOnSlash_append m _ hmnd,
      splitOnSlash_append d _ hdnd, splitOnSlash_no_slash y hynd]
  simp only [pyInt?_digits m hm hmd, pyInt?_digits d hd hdd, pyInt?_digits y hy hyd]
  rw [natCast_ite_year (decVal y)]
  set Y := if decVal y < 100 then 2000 + decVal y else decVal y with hYdef
  have hok : dateOk (Y : Int) (decVal m : Int) (decVal d : Int) = true := by
    unfold dateOk
    simp only [Int.toNat_natCast, Bool.and_eq_true, decide_eq_true_eq]
    refine ⟨⟨⟨⟨⟨?_, ?_⟩, ?_⟩, ?_⟩, ?_⟩, ?_⟩ <;> omega
  unfold mkDatetime
  rw [if_pos hok]
  simp [Int.toNat_natCast]

/-- Witness for C2 at the concrete input "12/29/25". -/
theorem c2_date_normalization_witness :
    parse_mmddyyyy (str "12/29/25") = some ⟨2025, 12, 29, 0, 0, 0, true⟩ := by
  have h := c2_date_normalization (str "12") (str "29") (str "25")
    (by decide) (by decide) (by decide) (by decide) (by decide) (by decide)
    (by decide) (by decide) (by decide) (by decide) (by decide) (by decide)
  simpa using h

/-- A page on which the end marker precedes the start marker: both
markers are present, so the isolator slices — to the empty string — and
the extractor finds nothing, although a scan of the whole document would
find one dated bullet. -/
def c1BadPage : Str :=
  str "recent federal register notices recent news & updates 1/2/26 - <a href=\"/x\">T</a>"

/-- C1 evaluation: when the first occurrence of the end marker lies
before the first occurrence of the start marker, `sectionOf` does not
fall back to the whole document; it returns the empty slice, and the
extractor consequently returns no entries even though the whole document
contains a matching dated bullet. -/
theorem c1_section_isolation_no_fallback :
    pyFind (c1BadPage.map pyLower) (str "recent news & updates") = 32 ∧
    pyFind (c1BadPage.map pyLower) (str "recent federal register notices") = 0 ∧
    sectionOf c1BadPage = [] ∧
    c1BadPage ≠ [] ∧
    extract_recent_news_items c1BadPage = [] ∧
    (finditer c1BadPage).filterMap toEntry? ≠ [] := by
  refine ⟨?_, ?_, ?_, ?_, ?_, ?_⟩ <;> decide

/-! ## The double-quote requirement of the pattern -/

/-- Whether the atom sequence contains a case-sensitive literal with a
double quote (the pattern's `"` after the captured href value). -/
def atomsNeedQuote : List Atom → Bool
  | [] => false
  | .lit cs ci :: as => (!ci && decide ('"' ∈ cs)) || atomsNeedQuote as
  | .cls _ _ _ _ :: as => atomsNeedQuote as
  | .gOpen _ :: as => atomsNeedQuote as
  | .gClose _ :: as => atomsNeedQuote as

theorem startsWithCI_exact_mem {rest cs : Str} (h : startsWithCI false rest cs = true)
    (hq : '"' ∈ cs) : '"' ∈ rest := by
  induction cs generalizing rest with
  | nil => simp at hq
  | cons n ns ih =>
    cases rest with
    | nil => simp [startsWithCI] at h
    | cons r rs =>
      simp only [startsWithCI, Bool.false_eq_true, if_false, Bool.and_eq_true,
        decide_eq_true_eq] at h
      rcases List.mem_cons.mp hq with hq1 | hq2
      · exact List.mem_cons.mpr (Or.inl (by rw [hq1, ← h.1]))
      · exact List.mem_cons.mpr (Or.inr (ih h.2 hq2))

theorem firstSomeRange_eq_some {α : Type} {f : Nat → Option α} {ks : List Nat} {r : α}
    (h : firstSomeRange f ks = some r) : ∃ k ∈ ks, f k = some r := by
  induction ks with
  | nil => simp [firstSomeRange] at h
  | cons k t ih =>
    by_cases hk : f k = none
    · simp only [firstSomeRange, hk] at h
      obtain ⟨k', hk', hfk⟩ := ih h
      exact ⟨k', by simp [hk'], hfk⟩
    · obtain ⟨v, hv⟩ := Option.ne_none_iff_exists'.mp hk
      refine ⟨k, by simp, ?_⟩
      simp only [firstSomeRange, hv] at h
      rw [hv, h]

theorem matchSeq_needs_quote :
    ∀ (atoms : List Atom) (rest : Str) (pos : Nat) (caps : Caps) (r : Nat × Caps),
      atomsNeedQuote atoms = true → matchSeq atoms rest pos caps = some r →
      '"' ∈ rest := by
  intro atoms
  induction atoms with
  | nil => intro rest pos caps r hq; simp [atomsNeedQuote] at hq
  | cons a as ih =>
    intro rest pos caps r hq hm
    cases a with
    | lit cs ci =>
      by_cases hs : startsWithCI ci rest cs = true
      · simp only [matchSeq, hs, if_true] at hm
        simp only [atomsNeedQuote, Bool.or_eq_true, Bool.and_eq_true,
          Bool.not_eq_true', decide_eq_true_eq] at hq
        rcases hq with ⟨hci, hcont⟩ | hrest
        · subst hci
          exact startsWithCI_exact_mem hs hcont
        · exact List.mem_of_mem_drop (ih _ (pos + cs.length) caps r hrest hm)
      · simp [matchSeq, hs] at hm
    | cls p lo hi lzy =>
      simp only [matchSeq] at hm
      split at hm
      · obtain ⟨k, _, hfk⟩ := firstSomeRange_eq_some hm
        have hq' : atomsNeedQuote as = true := hq
        exact List.mem_of_mem_drop (ih _ (pos + k) caps r hq' hfk)
      · exact absurd hm (by simp)
    | gOpen n => exact ih _ pos _ r hq hm
    | gClose n => exact ih _ pos _ r hq hm

theorem finditerAux_nil_of_no_quote (text : Str) (hq : '"' ∉ text) :
    ∀ (fuel i : Nat), finditerAux text fuel i = [] := by
  intro fuel
  induction fuel with
  | zero => intro i; rfl
  | succ f ih =>
    intro i
    unfold finditerAux
    by_cases hi : i > text.length
    · simp [hi]
    · simp only [hi, if_false]
      cases hma : matchAt text i with
      | none => simpa using ih (i + 1)
      | some v =>
        exfalso
        have : '"' ∈ text.drop i :=
          matchSeq_needs_quote patAtoms (text.drop i) i ⟨[], []⟩ v (by decide) hma
        exact hq (List.mem_of_mem_drop this)

theorem mem_of_mem_pySlice {c : Char} {l : Str} {a b : Nat} (h : c ∈ pySlice l a b) :
    c ∈ l :=
  List.mem_of_mem_drop (List.mem_of_mem_take (by simpa [pySlice] using h))

theorem sectionOf_no_quote {page : Str} (hq : '"' ∉ page) : '"' ∉ sectionOf page := by
  intro hmem
  apply hq
  simp only [sectionOf] at hmem
  repeat' split at hmem
  all_goals first | exact mem_of_mem_pySlice hmem | exact hmem

/-- C10: the extraction pattern requires the href value to be delimited
by double quotes: any page containing no double quote at all — in
particular one whose dated bullet carries a single-quoted href — yields
no entries. -/
theorem c10_double_quote_required :
    (∀ page : Str, '"' ∉ page → extract_recent_news_items page = []) ∧
    extract_recent_news_items
      (str "1/2/2026 - <a href=" ++ squote :: (str "/x" ++ squote :: str ">T</a>")) = [] := by
  constructor
  · intro page hq
    unfold extract_recent_news_items candidatesOf
    rw [show finditer (sectionOf page) = [] from
      finditerAux_nil_of_no_quote _ (sectionOf_no_quote hq) _ 0]
    rfl
  · decide

/-- Witness for C10: the single-quoted-href bullet has no double quote,
and the extractor returns the empty list on it. -/
theorem c10_double_quote_required_witness :
    '"' ∉ (str "1/2/2026 - <a href=" ++ squote :: (str "/x" ++ squote :: str ">T</a>")) ∧
    extract_recent_news_items
      (str "1/2/2026 - <a href=" ++ squote :: (str "/x" ++ squote :: str ">T</a>")) = [] :=
  ⟨by decide,
   c10_double_quote_required.1
     (str "1/2/2026 - <a href=" ++ squote :: (str "/x" ++ squote :: str ">T</a>"))
     (by decide)⟩

/-! ## Deduplication and ordering lemmas -/

/-- The first entry of `l` carrying the dedup key `k`, in source order. -/
def firstWithKey (k : Str × Str × Str) (l : List Entry) : Option Entry :=
  (l.filter (fun x => decide (entryKey x = k))).head?

theorem collectAux_spec :
    ∀ (l : List Entry) (seen : List (Str × Str × Str)) (e : Entry),
      e ∈ collectAux l seen →
      e.title ≠ [] ∧ entryKey e ∉ seen ∧ firstWithKey (entryKey e) l = some e := by
  intro l
  induction l with
  | nil => intro seen e he; simp [collectAux] at he
  | cons x xs ih =>
    intro seen e he
    by_cases hc : x.title ≠ [] ∧ ¬ entryKey x ∈ seen
    · rw [collectAux, if_pos hc] at he
      rcases List.mem_cons.mp he with he1 | he2
      · subst he1
        refine ⟨hc.1, hc.2, ?_⟩
        unfold firstWithKey
        rw [List.filter_cons_of_pos (by simp)]
        rfl
      · obtain ⟨ht, hni, hfw⟩ := ih (entryKey x :: seen) e he2
        have hne : entryKey x ≠ entryKey e := fun hk =>
          hni (List.mem_cons.mpr (Or.inl hk.symm))
        refine ⟨ht, fun hs => hni (List.mem_cons.mpr (Or.inr hs)), ?_⟩
        unfold firstWithKey at hfw ⊢
        rw [List.filter_cons_of_neg (by simp [hne])]
        exact hfw
    · rw [collectAux, if_neg hc] at he
      obtain ⟨ht, hni, hfw⟩ := ih seen e he
      push_neg at hc
      have hne : entryKey x ≠ entryKey e := by
        intro hk
        by_cases hxt : x.title = []
        · have : x.title = e.title := congrArg (fun p => p.1) hk
          exact ht (this ▸ hxt)
        · exact hni (hk ▸ hc hxt)
      refine ⟨ht, hni, ?_⟩
      unfold firstWithKey at hfw ⊢
      rw [List.filter_cons_of_neg (by simp [hne])]
      exact hfw

theorem collectAux_sublist :
    ∀ (l : List Entry) (seen : List (Str × Str × Str)),
      List.Sublist (collectAux l seen) l := by
  intro l
  induction l with
  | nil => intro seen; simp [collectAux]
  | cons x xs ih =>
    intro seen
    by_cases hc : x.title ≠ [] ∧ ¬ entryKey x ∈ seen
    · rw [collectAux, if_pos hc]
      exact (ih _).cons₂ x
    · rw [collectAux, if_neg hc]
      exact (ih _).cons x

theorem collectAux_pairwise :
    ∀ (l : List Entry) (seen : List (Str × Str × Str)),
      (collectAux l seen).Pairwise (fun a b => entryKey a ≠ entryKey b) := by
  intro l
  induction l with
  | nil => intro seen; simp [collectAux]
  | cons x xs ih =>
    intro seen
    by_cases hc : x.title ≠ [] ∧ ¬ entryKey x ∈ seen
    · rw [collectAux, if_pos hc]
      refine List.Pairwise.cons ?_ (ih _)
      intro b hb
      have := (collectAux_spec xs (entryKey x :: seen) b hb).2.1
      exact fun he => this (List.mem_cons.mpr (Or.inl he.symm))
    · rw [collectAux, if_neg hc]
      exact ih _

theorem dtLtB_irrefl (a : Datetime) : dtLtB a a = false := by
  simp [dtLtB]

theorem dtLtB_spec (a b : Datetime) :
    dtLtB a b = true ↔
      (a.year < b.year ∨ (a.year = b.year ∧ (a.month < b.month ∨ (a.month = b.month ∧
        (a.day < b.day ∨ (a.day = b.day ∧ (a.hour < b.hour ∨ (a.hour = b.hour ∧
          (a.minute < b.minute ∨ (a.minute = b.minute ∧ a.second < b.second)))))))))) := by
  unfold dtLtB
  split_ifs <;> simp_all

theorem dtLtB_asymm {a b : Datetime} (h : dtLtB a b = true) : dtLtB b a = false := by
  cases hba : dtLtB b a with
  | false => rfl
  | true =>
    exfalso
    have h1 := (dtLtB_spec a b).mp h
    have h2 := (dtLtB_spec b a).mp hba
    omega

theorem dtLtB_neg_trans {a b c : Datetime} (h1 : dtLtB a b = false)
    (h2 : dtLtB b c = false) : dtLtB a c = false := by
  cases hac : dtLtB a c with
  | false => rfl
  | true =>
    exfalso
    have h3 := (dtLtB_spec a c).mp hac
    have h4 : ¬ _ := fun hp => by rw [(dtLtB_spec a b).mpr hp] at h1; cases h1
    have h5 : ¬ _ := fun hp => by rw [(dtLtB_spec b c).mpr hp] at h2; cases h2
    omega

theorem insertDesc_perm (x : Entry) (l : List Entry) :
    List.Perm (insertDesc x l) (x :: l) := by
  induction l with
  | nil => exact List.Perm.refl _
  | cons y ys ih =>
    rw [insertDesc]
    split
    · exact (ih.cons y).trans (List.Perm.swap x y ys)
    · exact List.Perm.refl _

theorem sortDesc_perm (l : List Entry) : List.Perm (sortDesc l) l := by
  induction l with
  | nil => exact List.Perm.refl _
  | cons x xs ih => exact (insertDesc_perm x (sortDesc xs)).trans (ih.cons x)

theorem insertDesc_pairwise (x : Entry) (l : List Entry)
    (hl : l.Pairwise (fun a b => dtLtB a.pub_dt b.pub_dt = false)) :
    (insertDesc x l).Pairwise (fun a b => dtLtB a.pub_dt b.pub_dt = false) := by
  induction l with
  | nil => simp [insertDesc]
  | cons y ys ih =>
    rw [insertDesc]
    rcases List.pairwise_cons.mp hl with ⟨hy, hys⟩
    split
    · rename_i hlt
      refine List.pairwise_cons.mpr ⟨?_, ih hys⟩
      intro b hb
      rcases List.mem_cons.mp ((insertDesc_perm x ys).mem_iff.mp hb) with hb1 | hb2
      · subst hb1; exact dtLtB_asymm hlt
      · exact hy b hb2
    · rename_i hnlt
      refine List.pairwise_cons.mpr ⟨?_, hl⟩
      intro b hb
      rcases List.mem_cons.mp hb with hb1 | hb2
      · subst hb1; simpa using hnlt
      · exact dtLtB_neg_trans (by simpa using hnlt) (hy b hb2)

theorem sortDesc_pairwise (l : List Entry) :
    (sortDesc l).Pairwise (fun a b => dtLtB a.pub_dt b.pub_dt = false) := by
  induction l with
  | nil => simp [sortDesc]
  | cons x xs ih => exact insertDesc_pairwise x (sortDesc xs) ih

theorem insertDesc_filter_pos (x : Entry) (d : Datetime) (l : List Entry)
    (hx : x.pub_dt = d) :
    (insertDesc x l).filter (fun e => e.pub_dt == d) =
      x :: l.filter (fun e => e.pub_dt == d) := by
  induction l with
  | nil => simp [insertDesc, hx]
  | cons y ys ih =>
    rw [insertDesc]
    split
    · rename_i hlt
      have hyne : (y.pub_dt == d) = false := by
        apply beq_false_of_ne
        intro hyd
        rw [hx.trans hyd.symm, dtLtB_irrefl] at hlt
        cases hlt
      rw [List.filter_cons_of_neg (by simp [hyne]), List.filter_cons_of_neg (by simp [hyne])]
      exact ih
    · rw [List.filter_cons_of_pos (by simp [hx])]

theorem insertDesc_filter_neg (x : Entry) (d : Datetime) (l : List Entry)
    (hx : (x.pub_dt == d) = false) :
    (insertDesc x l).filter (fun e => e.pub_dt == d) =
      l.filter (fun e => e.pub_dt == d) := by
  induction l with
  | nil => simp [insertDesc, hx]
  | cons y ys ih =>
    rw [insertDesc]
    split
    · rw [List.filter_cons, List.filter_cons]
      cases hy : (y.pub_dt == d) <;> simp [hy, ih]
    · rw [List.filter_cons_of_neg (by simp [hx])]

theorem sortDesc_filter (d : Datetime) (l : List Entry) :
    (sortDesc l).filter (fun e => e.pub_dt == d) = l.filter (fun e => e.pub_dt == d) := by
  induction l with
  | nil => rfl
  | cons x xs ih =>
    rw [sortDesc]
    by_cases hx : x.pub_dt = d
    · rw [insertDesc_filter_pos x d _ hx, ih, List.filter_cons_of_pos (by simp [hx])]
    · rw [insertDesc_filter_neg x d _ (beq_false_of_ne hx), ih,
        List.filter_cons_of_neg (by simp [hx])]

theorem filter_take_isPre {α : Type} (p : α → Bool) (n : Nat) (l : List α) :
    (l.take n).filter p <+: l.filter p := by
  conv_rhs => rw [← List.take_append_drop n l]
  rw [List.filter_append]
  exact ⟨(l.drop n).filter p, rfl⟩

/-- C3: the extractor output has pairwise-distinct dedup keys, every
output entry has a non-empty title (an empty-title match produces no
entry), and each output entry is exactly the first candidate match with
its key in source-document order. -/
theorem c3_dedup_first_occurrence (page : Str) :
    (extract_recent_news_items page).Pairwise (fun a b => entryKey a ≠ entryKey b) ∧
    (∀ e ∈ extract_recent_news_items page, e.title ≠ []) ∧
    (∀ e ∈ extract_recent_news_items page,
      firstWithKey (entryKey e) (candidatesOf page) = some e) := by
  have hperm := sortDesc_perm (collectE (candidatesOf page))
  have hmem : ∀ e ∈ extract_recent_news_items page,
      e ∈ collectE (candidatesOf page) := by
    intro e he
    exact hperm.mem_iff.mp (List.mem_of_mem_take he)
  refine ⟨?_, ?_, ?_⟩
  · have hp : (collectE (candidatesOf page)).Pairwise
        (fun a b => entryKey a ≠ entryKey b) := collectAux_pairwise _ []
    have hps := (hperm.pairwise_iff fun h => Ne.symm h).mpr hp
    exact List.Pairwise.sublist (List.take_sublist _ _) hps
  · intro e he
    exact (collectAux_spec _ [] e (hmem e he)).1
  · intro e he
    exact (collectAux_spec _ [] e (hmem e he)).2.2

/-- C4: the extractor output is non-increasing by publish date, the
entries of each fixed publish date appear in the same relative order as
in the deduplicated source-order candidate list (stable sort), the
deduplicated list itself preserves source order, and the output length
is the deduplicated count capped at `MAX_ITEMS` (sorting happens before
truncation). -/
theorem c4_ordering_and_cap (page : Str) :
    (extract_recent_news_items page).Pairwise
      (fun a b => dtLtB a.pub_dt b.pub_dt = false) ∧
    (∀ d : Datetime,
      (extract_recent_news_items page).filter (fun e => e.pub_dt == d) <+:
        (collectE (candidatesOf page)).filter (fun e => e.pub_dt == d)) ∧
    List.Sublist (collectE (candidatesOf page)) (candidatesOf page) ∧
    (extract_recent_news_items page).length =
      min (collectE (candidatesOf page)).length MAX_ITEMS ∧
    (∀ e ∈ extract_recent_news_items page, e ∈ collectE (candidatesOf page)) := by
  have hperm := sortDesc_perm (collectE (candidatesOf page))
  refine ⟨?_, ?_, ?_, ?_, ?_⟩
  · exact List.Pairwise.sublist (List.take_sublist _ _) (sortDesc_pairwise _)
  · intro d
    have h1 := filter_take_isPre (fun e => e.pub_dt == d) MAX_ITEMS
      (sortDesc (collectE (candidatesOf page)))
    rw [sortDesc_filter d] at h1
    exact h1
  · exact collectAux_sublist _ []
  · unfold extract_recent_news_items
    rw [List.length_take, hperm.length_eq, Nat.min_comm]
  · intro e he
    exact hperm.mem_iff.mp (List.mem_of_mem_take he)

/-- A small page with a duplicate bullet (same title, href and date) and
two distinct dates, used to witness the dedup and ordering theorems. -/
def c34Page : Str :=
  str "1/2/26 - <a href=\"/x\">A</a> 1/2/26 - <a href=\"/x\">A</a> 3/4/26 - <a href=\"/y\">B</a>"

/-- Witness for C3: on the duplicate-bullet page, the kept entry for the
duplicated key is the first matching candidate in source order. -/
theorem c3_dedup_first_occurrence_witness :
    firstWithKey
      (entryKey ⟨⟨2026, 1, 2, 0, 0, 0, true⟩, str "A", str "https://www.fda.gov/x"⟩)
      (candidatesOf c34Page) =
      some ⟨⟨2026, 1, 2, 0, 0, 0, true⟩, str "A", str "https://www.fda.gov/x"⟩ :=
  (c3_dedup_first_occurrence c34Page).2.2
    ⟨⟨2026, 1, 2, 0, 0, 0, true⟩, str "A", str "https://www.fda.gov/x"⟩ (by decide)

/-- Witness for C4: every entry the extractor returns on the
duplicate-bullet page comes from the deduplicated candidate list. -/
theorem c4_ordering_and_cap_witness :
    (⟨⟨2026, 3, 4, 0, 0, 0, true⟩, str "B", str "https://www.fda.gov/y"⟩ : Entry) ∈
      collectE (candidatesOf c34Page) :=
  (c4_ordering_and_cap c34Page).2.2.2.2
    ⟨⟨2026, 3, 4, 0, 0, 0, true⟩, str "B", str "https://www.fda.gov/y"⟩ (by decide)

/-! ## Per-match failure recovery -/

theorem toEntry?_eq_none_iff (m : MatchRes) :
    toEntry? m = none ↔ parse_mmddyyyy m.g1 = none := by
  unfold toEntry?
  cases parse_mmddyyyy m.g1 <;> simp

/-- The page of the malformed-date scenario: a valid bullet, a bullet
whose date string matches the pattern but is no calendar date, and a
second valid bullet. -/
def c5Page : Str :=
  str "1/21/2026 - <a href=\"/x\">Title A</a>\n13/40/2026 - <a href=\"/bad\">Bad</a>\n12/29/25 - <a href=\"/y\">Title B</a>"

/-- C5: a match whose date string does not normalize (wrong group count,
non-integer group, or an invalid calendar date such as 13/40/2026)
contributes no entry, and dropping all such matches leaves the pipeline
result unchanged — the other matches are extracted exactly as before; on
the concrete malformed-date page the two valid bullets survive. -/
theorem c5_per_entry_failure_recovery :
    parse_mmddyyyy (str "13/40/2026") = none ∧
    parse_mmddyyyy (str "1/2") = none ∧
    parse_mmddyyyy (str "1/a/2026") = none ∧
    (∀ ms : List MatchRes,
      ms.filterMap toEntry? =
        (ms.filter (fun m => (parse_mmddyyyy m.g1).isSome)).filterMap toEntry?) ∧
    extract_recent_news_items c5Page =
      [⟨⟨2026, 1, 21, 0, 0, 0, true⟩, str "Title A", str "https://www.fda.gov/x"⟩,
       ⟨⟨2025, 12, 29, 0, 0, 0, true⟩, str "Title B", str "https://www.fda.gov/y"⟩] := by
  refine ⟨by decide, by decide, by decide, ?_, by decide⟩
  intro ms
  induction ms with
  | nil => rfl
  | cons m t ih =>
    by_cases h : (parse_mmddyyyy m.g1).isSome
    · obtain ⟨v, hv⟩ := Option.isSome_iff_exists.mp h
      have hm : toEntry? m = some ⟨v, normTitle m.g3, urljoinM SITE_BASE (pyStrip m.g2)⟩ := by
        unfold toEntry?
        rw [hv]
      rw [List.filter_cons_of_pos (by simp [h])]
      simp only [List.filterMap_cons, hm]
      rw [ih]
    · have hn : parse_mmddyyyy m.g1 = none := Option.not_isSome_iff_eq_none.mp h
      rw [List.filter_cons_of_neg (by simp [h])]
      simp only [List.filterMap_cons, (toEntry?_eq_none_iff m).mpr hn]
      exact ih

/-! ## Orchestrator claims -/

/-- C8: a fetch failure propagates out of `main` before anything is
written — the output file keeps its prior content, whatever it was, and
no success status is returned (the process exits non-zero) — while a
successful fetch always ends with the serialized feed written and status
0, whatever the extraction result. -/
theorem c8_fetch_atomicity_and_status :
    (∀ (now : Datetime) (fs0 : Option Str),
      mainModel .err now fs0 = ⟨fs0, none, none⟩) ∧
    (∀ (page : Str) (now : Datetime) (fs0 : Option Str),
      mainModel (.ok page) now fs0 =
        ⟨some (rssDoc now (extract_recent_news_items page)),
         some (extract_recent_news_items page).length, some 0⟩) :=
  ⟨fun _ _ => rfl, fun _ _ _ => rfl⟩

/-- The serialized channel shell up to the build timestamp. -/
def shellPre : Str :=
  str "<?xml version=\"1.0\" encoding=\"UTF-8\"?>\n<rss version=\"2.0\">\n  <channel>\n    <title>" ++
    html_escape (str "FDA Cosmetics News & Events") ++
    str "</title>\n    <link>" ++ html_escape PAGE_URL ++
    str "</link>\n    <description>" ++
    html_escape (str "Unofficial RSS feed generated from FDA Cosmetics News & Events (Recent News & Updates).") ++
    str "</description>\n    <lastBuildDate>"

/-- The serialized channel shell after the build timestamp (no items). -/
def shellPost : Str :=
  str "</lastBuildDate>\n" ++ joinNL [] ++ str "\n  </channel>\n</rss>\n"

theorem rssDoc_empty (now : Datetime) :
    rssDoc now [] = shellPre ++ (rfc2822c now ++ shellPost) := by
  simp only [rssDoc, shellPre, shellPost, joinNL, List.map_nil, List.intersperse,
    List.flatten_nil, List.append_nil, List.append_assoc]

set_option maxRecDepth 40000 in
/-- C9: on a page with no matching date-link pattern the run still
succeeds with status 0, reports zero written items, and writes the
complete channel shell — title, link, description and build timestamp —
with zero serialized item blocks. -/
theorem c9_empty_feed_well_formed (page : Str) (now : Datetime) (fs0 : Option Str)
    (h : extract_recent_news_items page = []) :
    mainModel (.ok page) now fs0 =
      ⟨some (shellPre ++ (rfc2822c now ++ shellPost)), some 0, some 0⟩ ∧
    (extract_recent_news_items page).map itemBlock = [] ∧
    List.IsInfix (str "<title>FDA Cosmetics News &amp; Events</title>") shellPre ∧
    List.IsInfix (str "<link>https://www.fda.gov/cosmetics/cosmetics-news-events</link>")
      shellPre ∧
    List.IsInfix
      (str "<description>Unofficial RSS feed generated from FDA Cosmetics News &amp; Events (Recent News &amp; Updates).</description>")
      shellPre := by
  refine ⟨?_, by rw [h]; rfl, by decide, by decide, by decide⟩
  show RunOutcome.mk (some (rssDoc now (extract_recent_news_items page)))
      (some (extract_recent_news_items page).length) (some 0) = _
  rw [h, rssDoc_empty]
  rfl

/-- Witness for C9 at a concrete matchless page and build instant. -/
theorem c9_empty_feed_well_formed_witness :
    mainModel (.ok (str "nothing matches here")) ⟨2026, 2, 3, 4, 5, 6, true⟩ none =
      ⟨some (shellPre ++ (rfc2822c ⟨2026, 2, 3, 4, 5, 6, true⟩ ++ shellPost)),
       some 0, some 0⟩ :=
  (c9_empty_feed_well_formed (str "nothing matches here") ⟨2026, 2, 3, 4, 5, 6, true⟩
    none (by decide)).1

/-! ## Escaping round trip -/

/-- Scanner behind `wellEscaped`: every character is either outside the
reserved set or the head of a recognized character reference. -/
def wellEscapedAux : Nat → Str → Bool
  | _, [] => true
  | 0, _ :: _ => false
  | f + 1, c :: cs =>
    if c = '&' then
      match entityAt cs with
      | some dn => wellEscapedAux f (cs.drop dn.2)
      | none => false
    else !(c = '<' || c = '>' || c = '"' || c = squote) && wellEscapedAux f cs

/-- A text in which the reserved markup characters occur only as
character references. -/
def wellEscaped (l : Str) : Bool := wellEscapedAux l.length l

theorem unescapeAux_escape (t : Str) :
    ∀ f, (html_escape t).length ≤ f → unescapeAux f (html_escape t) = t := by
  induction t with
  | nil => intro f _; cases f <;> rfl
  | cons c t ih =>
    intro f hf
    have hesc : html_escape (c :: t) = escChar c ++ html_escape t := by
      simp [html_escape]
    rw [hesc] at hf ⊢
    by_cases hc1 : c = '&'
    · subst hc1
      cases f with
      | zero => exfalso; simp [escChar, str] at hf
      | succ f' =>
        have hstep :
            unescapeAux (f' + 1) (escChar '&' ++ html_escape t) =
              '&' :: unescapeAux f' (html_escape t) := rfl
        rw [hstep, ih f' (by simp [escChar, str] at hf; omega)]
    · by_cases hc2 : c = '<'
      · subst hc2
        cases f with
        | zero => exfalso; simp [escChar, str] at hf
        | succ f' =>
          have hstep :
              unescapeAux (f' + 1) (escChar '<' ++ html_escape t) =
                '<' :: unescapeAux f' (html_escape t) := rfl
          rw [hstep, ih f' (by simp [escChar, str] at hf; omega)]
      · by_cases hc3 : c = '>'
        · subst hc3
          cases f with
          | zero => exfalso; simp [escChar, str] at hf
          | succ f' =>
            have hstep :
                unescapeAux (f' + 1) (escChar '>' ++ html_escape t) =
                  '>' :: unescapeAux f' (html_escape t) := rfl
            rw [hstep, ih f' (by simp [escChar, str] at hf; omega)]
        · by_cases hc4 : c = '"'
          · subst hc4
            cases f with
            | zero => exfalso; simp [escChar, str] at hf
            | succ f' =>
              have hstep :
                  unescapeAux (f' + 1) (escChar '"' ++ html_escape t) =
                    '"' :: unescapeAux f' (html_escape t) := rfl
              rw [hstep, ih f' (by simp [escChar, str] at hf; omega)]
          · by_cases hc5 : c = squote
            · subst hc5
              cases f with
              | zero => exfalso; simp [escChar, str, squote] at hf
              | succ f' =>
                have hstep :
                    unescapeAux (f' + 1) (escChar squote ++ html_escape t) =
                      squote :: unescapeAux f' (html_escape t) := rfl
                rw [hstep, ih f' (by simp [escChar, str, squote] at hf; omega)]
            · have hone : escChar c = [c] := by
                simp [escChar, hc1, hc2, hc3, hc4, hc5]
              rw [hone] at hf ⊢
              cases f with
              | zero => exfalso; simp at hf
              | succ f' =>
                show unescapeAux (f' + 1) (c :: html_escape t) = c :: t
                rw [unescapeAux, if_neg hc1, ih f' (by simp at hf; omega)]

theorem wellEscapedAux_escape (t : Str) :
    ∀ f, (html_escape t).length ≤ f → wellEscapedAux f (html_escape t) = true := by
  induction t with
  | nil => intro f _; cases f <;> rfl
  | cons c t ih =>
    intro f hf
    have hesc : html_escape (c :: t) = escChar c ++ html_escape t := by
      simp [html_escape]
    rw [hesc] at hf ⊢
    by_cases hc1 : c = '&'
    · subst hc1
      cases f with
      | zero => exfalso; simp [escChar, str] at hf
      | succ f' =>
        have hstep :
            wellEscapedAux (f' + 1) (escChar '&' ++ html_escape t) =
              wellEscapedAux f' (html_escape t) := rfl
        rw [hstep, ih f' (by simp [escChar, str] at hf; omega)]
    · by_cases hc2 : c = '<'
      · subst hc2
        cases f with
        | zero => exfalso; simp [escChar, str] at hf
        | succ f' =>
          have hstep :
              wellEscapedAux (f' + 1) (escChar '<' ++ html_escape t) =
                wellEscapedAux f' (html_escape t) := rfl
          rw [hstep, ih f' (by simp [escChar, str] at hf; omega)]
      · by_cases hc3 : c = '>'
        · subst hc3
          cases f with
          | zero => exfalso; simp [escChar, str] at hf
          | succ f' =>
            have hstep :
                wellEscapedAux (f' + 1) (escChar '>' ++ html_escape t) =
                  wellEscapedAux f' (html_escape t) := rfl
            rw [hstep, ih f' (by simp [escChar, str] at hf; omega)]
        · by_cases hc4 : c = '"'
          · subst hc4
            cases f with
            | zero => exfalso; simp [escChar, str] at hf
            | succ f' =>
              have hstep :
                  wellEscapedAux (f' + 1) (escChar '"' ++ html_escape t) =
                    wellEscapedAux f' (html_escape t) := rfl
              rw [hstep, ih f' (by simp [escChar, str] at hf; omega)]
          · by_cases hc5 : c = squote
            · subst hc5
              cases f with
              | zero => exfalso; simp [escChar, str, squote] at hf
              | succ f' =>
                have hstep :
                    wellEscapedAux (f' + 1) (escChar squote ++ html_escape t) =
                      wellEscapedAux f' (html_escape t) := rfl
                rw [hstep, ih f' (by simp [escChar, str, squote] at hf; omega)]
            · have hone : escChar c = [c] := by
                simp [escChar, hc1, hc2, hc3, hc4, hc5]
              rw [hone] at hf ⊢
              cases f with
              | zero => exfalso; simp at hf
              | succ f' =>
                show wellEscapedAux (f' + 1) (c :: html_escape t) = true
                rw [wellEscapedAux, if_neg hc1, ih f' (by simp at hf; omega)]
                simp [hc2, hc3, hc4, hc5]

/-- C6: every title, link, guid and channel text in the feed document is
rendered through `html_escape`; escaping leaves the reserved markup
characters present only inside character references; and unescaping the
escaped text recovers the original exactly, for every string. -/
theorem c6_escaping_round_trip :
    (∀ t : Str, html_unescape (html_escape t) = t) ∧
    (∀ t : Str, wellEscaped (html_escape t) = true) ∧
    (∀ e : Entry, itemBlock e =
      str "<item>\n      <title>" ++ html_escape e.title ++
      str "</title>\n      <link>" ++ html_escape e.url ++
      str "</link>\n      <guid isPermaLink=\"true\">" ++ html_escape e.url ++
      str "</guid>\n      <pubDate>" ++ rfc2822c e.pub_dt ++
      str "</pubDate>\n    </item>") :=
  ⟨fun t => unescapeAux_escape t _ (Nat.le_refl _),
   fun t => wellEscapedAux_escape t _ (Nat.le_refl _),
   fun _ => rfl⟩

/-! ## Link resolution claims -/

